import Mathlib

/-!
# Verification of the `script` pipeline engine against its specification

This file gives a shallow embedding, in Lean 4, of the pipeline engine of
the `script` repository (package `pipeline`, file `pipeline.go`, together
with the stage library in package `std`), and proves or refutes the
specification's claims about it.

Modelling conventions:
* Go byte slices and streams are `List Nat` (each element a byte value).
* Go strings are Lean `String` (message text) or `List Char` where
  character-level reasoning is needed; the inputs appearing in the claims
  are ASCII, and byte/char conversions are restricted to that range.
* Go errors are the inductive `GoError` below, covering the error shapes
  the engine inspects: `io.EOF`, the package's own `*ExitError`,
  `*exec.ExitError` (modelled by its native `ExitCode()` result), the
  `strconv` conversion error, and a generic error carrying a message.
* Fallible operations return `Option`/pairs; mutation is explicit state
  passing.  Value-receiver methods (which in Go mutate only a copy of the
  receiver) are modelled by *not* returning an updated receiver.
-/

/-- The error shapes the engine inspects.  `exitError` is the package's own
`*pipeline.ExitError` (fields `Code`, `Message`); `execExitError` is an
`*os/exec.ExitError`, modelled by the value of its native `ExitCode()`
accessor; `numError` is the `*strconv.NumError` returned by
`strconv.ParseInt`, carrying the offending input string; `generic` is any
other error, modelled by its `Error()` message. -/
inductive GoError where
  | eof
  | exitError (code : Int) (message : String)
  | execExitError (code : Int)
  | numError (input : String)
  | generic (message : String)
deriving DecidableEq, Repr

/-- `Error()` message of each modelled error, as defined by the Go sources:
`ExitError.Error` formats `"Process exited with status %d[: %s]"`;
`exec.ExitError.Error` delegates to `os.ProcessState.String`, which yields
`"exit status %d"`; `io.EOF.Error` is `"EOF"`; `strconv.NumError.Error`
formats `"strconv.ParseInt: parsing %q: invalid syntax"`. -/
def errString : GoError → String
  | .eof => "EOF"
  | .exitError c m =>
      if m = "" then "Process exited with status " ++ toString c
      else "Process exited with status " ++ toString c ++ ": " ++ m
  | .execExitError c => "exit status " ++ toString c
  | .numError s => "strconv.ParseInt: parsing " ++ s ++ ": invalid syntax"
  | .generic m => m

/-! ## Exit-status extraction (`Pipeline.ExitStatus`, pipeline.go 90-116)

The Go code, given the captured error:
* returns 0 when the error is `nil`;
* returns `exitError.ExitCode()` when the error is a `*pipeline.ExitError`;
* returns `exitError.ExitCode()` when the error is a `*exec.ExitError`;
* otherwise matches the error message against the compiled regular
  expression `exit status (\d+)$` and, on a match, returns
  `strconv.Atoi` of the captured digits (0 if `Atoi` fails);
* returns 0 when the pattern does not match.

The regular expression `exit status (\d+)$` matches exactly when the
message ends with the literal `"exit status "` followed by a non-empty
run of digits extending to the end of the string; since a digit cannot
be preceded by the literal's trailing space inside a digit run, the
captured group is exactly the maximal trailing digit run.
`findExitDigits` below computes that. -/

/-- The literal part of the pattern `exit status (\d+)$`. -/
def exitStatusLit : List Char := "exit status ".toList

/-- Maximal trailing run of decimal digits of a character list. -/
def trailingDigits (s : List Char) : List Char :=
  (s.reverse.takeWhile Char.isDigit).reverse

/-- Suffix test on character lists (used in place of Go's regexp anchor). -/
def endsWithL (l suf : List Char) : Bool :=
  decide (l.drop (l.length - suf.length) = suf)

/-- `FindStringSubmatch` of `exit status (\d+)$`: the captured digit group
when the pattern matches, `none` otherwise. -/
def findExitDigits (s : List Char) : Option (List Char) :=
  let d := trailingDigits s
  if d = [] then none
  else if endsWithL (s.take (s.length - d.length)) exitStatusLit then some d
  else none

/-- Numeric value of a digit run (most significant first). -/
def digitsToNat (l : List Char) : Nat :=
  l.foldl (fun a c => a * 10 + (c.toNat - 48)) 0

/-- Largest value representable in Go's 64-bit `int`. -/
def maxInt64 : Nat := 2 ^ 63 - 1

/-- `strconv.Atoi` on the captured group: the group is a non-empty digit
run, so the only failure mode is range overflow of the 64-bit `int`. -/
def goAtoi (l : List Char) : Option Int :=
  if l = [] then none
  else if l.all Char.isDigit then
    if digitsToNat l ≤ maxInt64 then some (digitsToNat l) else none
  else none

/-- `Pipeline.ExitStatus` (pipeline.go 95-116), as a function of the
captured error.  Branch order mirrors the source: `nil` check, then the
`*ExitError` type assertion, then the `*exec.ExitError` type assertion,
then the textual pattern with `strconv.Atoi`, then 0. -/
def exitStatus : Option GoError → Int
  | none => 0
  | some (.exitError c _) => c
  | some (.execExitError c) => c
  | some e =>
      match findExitDigits (errString e).toList with
      | some d =>
          match goAtoi d with
          | some v => v
          | none => 0
      | none => 0

/-! ## The stream pair (`type Pipe`, pipeline.go 290-354)

A `Pipe` holds an optional write end (an `io.PipeWriter` when built by
`NewPipe`, `nil` when built by `NewReadOnlyPipe`), an optional reader, and
an `isClosed` flag.  The model tracks, for each end, whether it is present
and how many times its native `Close` has been invoked; the underlying
reader is modelled as its remaining byte stream (`readerData`), which is
faithful for the read-only pipes the proved claims exercise (an
`io.PipeWriter`-fed conduit is only ever touched by the model through the
`isClosed` short-circuit, which in the source returns before reaching the
conduit).  `readerIsCloser` records whether the wrapped reader satisfies
`io.ReadCloser` (the `rc, ok :=` type assertion in `Pipe.Close`).
Native `Close` on both `io.PipeWriter` and the modelled read closers
returns `nil`. -/
structure GoPipe where
  hasWriter : Bool
  writerCloses : Nat
  hasReader : Bool
  readerIsCloser : Bool
  readerData : List Nat
  readerCloses : Nat
  isClosed : Bool
deriving DecidableEq, Repr

/-- `NewReadOnlyPipe(reader)` (pipeline.go 308-312): only the reader is
set; the writer is `nil` and `isClosed` starts `false`. -/
def mkReadOnlyPipe (data : List Nat) (isCloser : Bool) : GoPipe :=
  { hasWriter := false, writerCloses := 0, hasReader := true,
    readerIsCloser := isCloser, readerData := data, readerCloses := 0,
    isClosed := false }

/-- The zero-value `&Pipe{}` used by `NewPipeline` (pipeline.go 43). -/
def zeroPipe : GoPipe :=
  { hasWriter := false, writerCloses := 0, hasReader := false,
    readerIsCloser := false, readerData := [], readerCloses := 0,
    isClosed := false }

/-- A fresh conduit pipe as built by `NewPipe` (pipeline.go 299-305):
both ends of an `io.Pipe` are present.  The conduit's contents are
produced by the concurrently launched stage and are not modelled (no
proved claim reads through a conduit pipe). -/
def newConduitPipe : GoPipe :=
  { hasWriter := true, writerCloses := 0, hasReader := true,
    readerIsCloser := true, readerData := [], readerCloses := 0,
    isClosed := false }

/-- `Pipe.Close` (pipeline.go 315-326): close the writer if present, else
natively close the reader if it is an `io.ReadCloser`; in every case set
`isClosed` and return the native close error (here always `nil`). -/
def pipeClose (p : GoPipe) : GoPipe × Option GoError :=
  if p.hasWriter then
    ({ p with writerCloses := p.writerCloses + 1, isClosed := true }, none)
  else if p.hasReader && p.readerIsCloser then
    ({ p with readerCloses := p.readerCloses + 1, isClosed := true }, none)
  else
    ({ p with isClosed := true }, none)

/-- `Pipe.IsClosed` (pipeline.go 329-331). -/
def pipeIsClosed (p : GoPipe) : Bool := p.isClosed

/-- `Pipe.Read` (pipeline.go 334-346): `nil` reader or a closed pipe
reports `io.EOF` without touching the underlying reader; otherwise the
underlying reader is read (returning up to `c` bytes, or `(0, io.EOF)`
when drained, as a `strings.Reader`-style source does), and on observing
`io.EOF` the pipe closes itself before returning. -/
def pipeRead (p : GoPipe) (c : Nat) : GoPipe × List Nat × Option GoError :=
  if !p.hasReader then (p, [], some .eof)
  else if p.isClosed then (p, [], some .eof)
  else if p.readerData = [] then ((pipeClose p).1, [], some .eof)
  else ({ p with readerData := p.readerData.drop c }, p.readerData.take c, none)

/-! ## The pipeline (`type Pipeline`, pipeline.go 22-288)

Fields relevant to the claims: the tail stream `lastPipe`, the captured
error `err` (mutex-protected in the source; the lock has no observable
effect in this sequential model), and the `exitOnError` flag.  The ghost
field `launched` counts the stages spawned as goroutines by `Pipe`; the
spawned goroutine's own execution (running the stage and capturing its
error) is concurrent and is represented only by this launch record, which
is what claim C2 is about. -/
structure PipelineM where
  lastPipe : GoPipe
  err : Option GoError
  exitOnError : Bool
  launched : Nat
deriving DecidableEq, Repr

/-- `NewPipeline` (pipeline.go 38-47): empty zero-value tail, no error,
`exitOnError` false. -/
def newPipeline : PipelineM :=
  { lastPipe := zeroPipe, err := none, exitOnError := false, launched := 0 }

/-- `Pipeline.SetExitOnError` (pipeline.go 223-226). -/
def setExitOnError (p : PipelineM) (v : Bool) : PipelineM :=
  { p with exitOnError := v }

/-- `Pipeline.SetError` (pipeline.go 212-220). -/
def setError (p : PipelineM) (e : GoError) : PipelineM :=
  { p with err := some e }

/-- `Pipeline.WithReader` (pipeline.go 270-273): replace the tail with a
read-only pipe over the given reader. -/
def withReaderP (p : PipelineM) (data : List Nat) (isCloser : Bool) : PipelineM :=
  { p with lastPipe := mkReadOnlyPipe data isCloser }

/-- `Pipeline.Pipe` (pipeline.go 154-169): when `exitOnError` is set and
an error is already captured, return the pipeline unchanged without
launching anything; otherwise advance the tail to a fresh conduit pipe
and launch the stage concurrently (recorded in the ghost `launched`
counter). -/
def goPipeStage (p : PipelineM) : PipelineM :=
  if p.exitOnError && p.err.isSome then p
  else { p with lastPipe := newConduitPipe, launched := p.launched + 1 }

/-- `Pipeline.Read` (pipeline.go 179-184): a `nil` receiver reports
`(0, io.EOF)`; otherwise delegate to the tail pipe.  The `Option` on the
receiver models Go's nil pointer. -/
def pipelineRead (p : Option PipelineM) (c : Nat) : List Nat × Option GoError :=
  match p with
  | none => ([], some .eof)
  | some pl => ((pipeRead pl.lastPipe c).2.1, (pipeRead pl.lastPipe c).2.2)

/-- One loop iteration structure of `io.ReadAll` as used by
`Pipeline.Bytes` (pipeline.go 66-72): repeatedly read (each call
requesting `c ≥ 1` bytes of remaining capacity), accumulate the bytes of
every read including the final one, stop at the first error, and treat
`io.EOF` as successful termination.  `fuel` bounds the iteration count;
the theorems below only use enough fuel to finish draining and never hit
the `0` case. -/
def readAllAux : Nat → GoPipe → Nat → GoPipe × List Nat × Option GoError
  | 0, p, _ => (p, [], none)
  | fuel + 1, p, c =>
      match pipeRead p c with
      | (p1, bs, some e) => if e = .eof then (p1, bs, none) else (p1, bs, some e)
      | (p1, bs, none) =>
          let r := readAllAux fuel p1 c
          (r.1, bs ++ r.2.1, r.2.2)

/-- `Pipeline.Bytes` (pipeline.go 66-72): `io.ReadAll` the pipeline, set
the captured error on a read failure, and return the data together with
`p.Error()`. -/
def goBytes (pl : PipelineM) (c fuel : Nat) : List Nat × Option GoError :=
  match readAllAux fuel pl.lastPipe c with
  | (_, data, some e) => (data, some e)
  | (_, data, none) => (data, pl.err)

/-! ## The auto-closing reader (`ReadAutoCloser`, pipeline.go 689-732)

`ReadAutoCloser` is a struct *value* `{ r io.ReadCloser; isClosed bool }`
and both `Read` and `Close` are declared on a **value receiver**, so the
`ra.isClosed = true` assignment inside `Close` mutates a method-local
copy: the caller's struct is never updated.  The model therefore splits
the state in two: `RAC` is the caller-held struct value, which no
operation returns updated (Go value semantics), and `Under` is the shared
heap state of the wrapped `io.ReadCloser` — its remaining bytes and how
many times its `Close` has been invoked.  `Under` models a closer whose
`Close` does not disturb reading (for example a byte buffer paired with a
close-counting closer), a legitimate instance of the claim's "every
wrapped byte source". -/
structure RAC where
  hasR : Bool
  isClosed : Bool
deriving DecidableEq, Repr

/-- Shared state of the wrapped `io.ReadCloser`. -/
structure Under where
  data : List Nat
  closeCount : Nat
deriving DecidableEq, Repr

/-- The struct value produced by `NewReadAutoCloser` (pipeline.go
697-707): wraps the reader (adding a `NopCloser` when needed) with
`isClosed` false. -/
def mkRAC : RAC := { hasR := true, isClosed := false }

/-- A read of the wrapped source: up to `c` bytes, `(0, io.EOF)` once
drained (also when drained and already closed — closing this source does
not disturb its reads). -/
def underRead (u : Under) (c : Nat) : Under × Nat × Option GoError :=
  if u.data = [] then (u, 0, some .eof)
  else ({ u with data := u.data.drop c }, (u.data.take c).length, none)

/-- `ReadAutoCloser.Close` (pipeline.go 710-716): `nil` reader is a
no-op; otherwise set `isClosed` on the *copied* receiver (an update the
caller never sees, hence no `RAC` in the result) and natively close the
wrapped reader. -/
def racClose (ra : RAC) (u : Under) : Under × Option GoError :=
  if !ra.hasR then (u, none)
  else ({ u with closeCount := u.closeCount + 1 }, none)

/-- `ReadAutoCloser.Read` (pipeline.go 721-732): `nil` reader reports
`io.EOF`; otherwise read the wrapped reader, then — if the (copied)
receiver's `isClosed` is set — override the error with `io.EOF`, else on
observing `io.EOF` invoke `Close`.  The receiver is a value, so the
caller's `RAC` is unchanged by the call. -/
def racRead (ra : RAC) (u : Under) (c : Nat) : Under × Nat × Option GoError :=
  if !ra.hasR then (u, 0, some .eof)
  else
    let r := underRead u c
    if ra.isClosed then (r.1, r.2.1, some .eof)
    else if r.2.2 = some .eof then ((racClose ra r.1).1, r.2.1, r.2.2)
    else (r.1, r.2.1, r.2.2)

/-- A sequence of reads against one `ReadAutoCloser` value, with the
chunk size of each read given by the schedule; returns the final shared
state of the wrapped reader. -/
def racReads (ra : RAC) : Under → List Nat → Under
  | u, [] => u
  | u, c :: cs => racReads ra (racRead ra u c).1 cs

/-! ## Line scanning (`newScanner`/`Scanner`, pipeline.go 380-395, and
`Pipeline.Slice`, pipeline.go 234-240)

`newScanner` is a `bufio.Scanner` with its default `ScanLines` split
function: tokens are the input split at each `'\n'` (byte 10), a single
trailing `'\r'` (byte 13) is dropped from every token, and a non-empty
remainder after the last `'\n'` is emitted as a final token.  `Slice`
drains the pipeline through a `Scanner` stage whose callback appends
each token, so its result on a pipeline holding `input` is exactly
`goLines input`. -/

/-- `dropCR` of `bufio.ScanLines`: strip one trailing `'\r'`. -/
def dropCR (l : List Nat) : List Nat :=
  if l.getLast? = some 13 then l.dropLast else l

/-- Token stream of `bufio.ScanLines`; `acc` holds the bytes of the
current token in reverse. -/
def scanLinesAux : List Nat → List Nat → List (List Nat)
  | [], acc => if acc = [] then [] else [dropCR acc.reverse]
  | b :: rest, acc =>
      if b = 10 then dropCR acc.reverse :: scanLinesAux rest []
      else scanLinesAux rest (b :: acc)

/-- The line list a `bufio.Scanner` over `ScanLines` produces. -/
def goLines (input : List Nat) : List (List Nat) := scanLinesAux input []

/-- `Pipeline.Slice` (pipeline.go 234-240) on a pipeline holding
`input`: the scanner's tokens, in order. -/
def sliceModel (input : List Nat) : List (List Nat) := goLines input

/-- Join a line list with one line-feed separator appended per line (the
joining operation of the round-trip claim). -/
def joinLines : List (List Nat) → List Nat
  | [] => []
  | l :: ls => l ++ 10 :: joinLines ls

/-- Whether the byte list contains a `'\r'` immediately followed by
`'\n'`. -/
def hasCRLF : List Nat → Bool
  | [] => false
  | [_] => false
  | a :: b :: rest => (a = 13 && b = 10) || hasCRLF (b :: rest)

/-! ## Integer materializer (`Pipeline.Int64`/`Int`, pipeline.go 119-136)

`Int64` reads the pipeline's bytes, trims surrounding whitespace with
`strings.TrimSpace`, and parses the remainder with
`strconv.ParseInt(s, 10, 64)`; a conversion failure returns
`(0, convErr)` directly, success returns `(result, p.Error())`.
`TrimSpace` trims `unicode.IsSpace` code points; for the ASCII inputs of
the claims these are space, `\t`, `\n`, `\v`, `\f`, `\r`. -/

/-- ASCII portion of `unicode.IsSpace`. -/
def isGoSpace (b : Nat) : Bool :=
  b = 32 || b = 9 || b = 10 || b = 11 || b = 12 || b = 13

/-- `strings.TrimSpace` on ASCII bytes. -/
def trimSpace (l : List Nat) : List Nat :=
  ((l.dropWhile isGoSpace).reverse.dropWhile isGoSpace).reverse

/-- ASCII decimal digit test on bytes. -/
def isDigitByte (b : Nat) : Bool := 48 ≤ b && b ≤ 57

/-- `strconv.ParseInt(s, 10, 64)`: optional sign, then a non-empty run
of decimal digits, value within the 64-bit `int` range. -/
def parseInt64 (l : List Nat) : Option Int :=
  let signed : Bool × List Nat :=
    match l with
    | 43 :: rest => (false, rest)
    | 45 :: rest => (true, rest)
    | _ => (false, l)
  let digits := signed.2
  if digits = [] then none
  else if digits.all isDigitByte then
    let n : Nat := digits.foldl (fun a b => a * 10 + (b - 48)) 0
    if signed.1 then
      if n ≤ 2 ^ 63 then some (-(n : Int)) else none
    else
      if n ≤ maxInt64 then some (n : Int) else none
  else none

/-- ASCII byte list of a Lean string (all claim inputs are ASCII). -/
def strBytes (s : String) : List Nat := s.toList.map Char.toNat

/-- ASCII string of a byte list. -/
def bytesToString (l : List Nat) : String := String.mk (l.map Char.ofNat)

/-- `Pipeline.Int64` (pipeline.go 119-130) on a pipeline whose drained
bytes are `input` and whose captured error is `pipeErr`: trim, parse,
and return `(0, conversion error)` on failure or `(value, p.Error())` on
success.  (The `*strconv.NumError` is modelled as carrying the string it
failed to parse; its syntax/range sub-kind is not inspected by any
claim.) -/
def int64Model (input : List Nat) (pipeErr : Option GoError) : Int × Option GoError :=
  let strData := trimSpace input
  match parseInt64 strData with
  | none => (0, some (.numError (bytesToString strData)))
  | some v => (v, pipeErr)

/-! ## The lifting adapter (`WithErr`, pipeline.go 398-406)

`WithErr` turns a plain stage into a diagnostic-capable one.  A plain
stage is modelled by its observable behaviour on a given input stream:
the bytes it writes to its output and the error it returns.  The adapter
runs the stage, and exactly on a non-nil error writes
`fmt.Fprintf(stderr, "%v\n", err)` — the error's message followed by a
newline — to the diagnostic stream, then returns that same error. -/
def withErrModel (prog : List Nat → List Nat × Option GoError) (stdin : List Nat) :
    List Nat × List Nat × Option GoError :=
  let r := prog stdin
  match r.2 with
  | some e => (r.1, strBytes (errString e) ++ [10], some e)
  | none => (r.1, [], none)

/-! ## Frequency counting (`Freq`, std package, part_001 418-450)

`Freq` scans its input into lines, counts occurrences in a map, computes
the maximum count, sorts the (line, count) pairs with
`sort.Slice(less)` where `less i j` is `count_i > count_j`, ties broken
by `line_i < line_j`, and prints each as `fmt.Fprintf(w, "%*d %s\n",
fieldWidth, count, line)` with `fieldWidth = len(strconv.Itoa(max))`
(the count right-justified in that field).  The Go map's iteration order
is unspecified, but the comparator is a strict total order on the
entries (distinct lines), so the sorted sequence is independent of it;
the model collects entries in first-occurrence order and sorts by
insertion, which yields that same unique sorted sequence. -/

/-- Count an occurrence of `s` in the association list modelling
`map[string]int`. -/
def freqInsert (m : List (String × Nat)) (s : String) : List (String × Nat) :=
  match m with
  | [] => [(s, 1)]
  | (t, c) :: rest => if t = s then (t, c + 1) :: rest else (t, c) :: freqInsert rest s

/-- The frequency table of a line list. -/
def freqCounts (ls : List String) : List (String × Nat) := ls.foldl freqInsert []

/-- The maximum count (`max` in the source, 0 when there are no lines). -/
def freqMax (m : List (String × Nat)) : Nat := m.foldl (fun a p => max a p.2) 0

/-- The `sort.Slice` comparator: larger count first, ties by line in
ascending byte order. -/
def freqLess (x y : String × Nat) : Bool :=
  if x.2 = y.2 then x.1 < y.1 else y.2 < x.2

/-- Insertion into a `freqLess`-sorted list. -/
def insSorted (x : String × Nat) : List (String × Nat) → List (String × Nat)
  | [] => [x]
  | y :: ys => if freqLess x y then x :: y :: ys else y :: insSorted x ys

/-- Insertion sort by `freqLess` (the unique `freqLess`-sorted ordering
of the distinct-keyed entries, hence the `sort.Slice` result). -/
def sortFreq (m : List (String × Nat)) : List (String × Nat) :=
  m.foldr insSorted []

/-- `%*d`: decimal rendering right-justified in a field of width `w`. -/
def padCount (w c : Nat) : String :=
  String.mk (List.replicate (w - (toString c).length) ' ') ++ toString c

/-- `Freq` (part_001 418-450): the full output byte stream of the stage
on input `input`. -/
def freqOutput (input : List Nat) : List Nat :=
  let lines := (goLines input).map bytesToString
  let counts := freqCounts lines
  let w := (toString (freqMax counts)).length
  joinLines ((sortFreq counts).map (fun p => strBytes (padCount w p.2 ++ " " ++ p.1)))

/-! ## Theorems -/

/-- `pipeClose` always sets the closed flag, whatever the pipe's shape. -/
theorem pipeClose_isClosed (p : GoPipe) : (pipeClose p).1.isClosed = true := by
  unfold pipeClose
  split
  · rfl
  · split <;> rfl

/-- `pipeClose` returns the native close error, which is `nil` for every
modelled end. -/
theorem pipeClose_err (p : GoPipe) : (pipeClose p).2 = none := by
  unfold pipeClose
  split
  · rfl
  · split <;> rfl

/-- A closed pipe reads as `(0, io.EOF)` and is left untouched. -/
theorem pipeRead_of_closed (p : GoPipe) (c : Nat) (h : p.isClosed = true) :
    pipeRead p c = (p, [], some .eof) := by
  unfold pipeRead
  rw [h]
  split <;> simp

/-- C3: for every stream pair, after `Close` the pair is closed, reads
return 0 bytes with end-of-stream and leave the pair unchanged (hence
every later read behaves the same), and a second `Close` succeeds and
leaves the pair closed. -/
theorem pipe_close_discipline (p : GoPipe) (c : Nat) :
    pipeIsClosed (pipeClose p).1 = true ∧
    (pipeClose p).2 = none ∧
    pipeRead (pipeClose p).1 c = ((pipeClose p).1, [], some GoError.eof) ∧
    pipeIsClosed (pipeClose (pipeClose p).1).1 = true ∧
    (pipeClose (pipeClose p).1).2 = none :=
  ⟨pipeClose_isClosed p, pipeClose_err p,
   pipeRead_of_closed _ c (pipeClose_isClosed p),
   pipeClose_isClosed _, pipeClose_err _⟩

/-- C2: with the exit-on-first-error flag set and an error captured,
`Pipe` returns the pipeline unchanged: no stage is launched and the tail
and error are untouched. -/
theorem pipe_exit_on_error_noop (p : PipelineM) (e : GoError)
    (h1 : p.exitOnError = true) (h2 : p.err = some e) :
    goPipeStage p = p := by
  unfold goPipeStage
  rw [h1, h2]
  simp

/-- Witness for C2 at a concrete pipeline state. -/
theorem pipe_exit_on_error_noop_witness :
    ({ lastPipe := zeroPipe, err := some (GoError.generic "boom"),
       exitOnError := true, launched := 0 } : PipelineM).exitOnError = true ∧
    goPipeStage { lastPipe := zeroPipe, err := some (GoError.generic "boom"),
                  exitOnError := true, launched := 0 } =
      { lastPipe := zeroPipe, err := some (GoError.generic "boom"),
        exitOnError := true, launched := 0 } :=
  ⟨rfl, pipe_exit_on_error_noop _ (GoError.generic "boom") rfl rfl⟩

/-- C4: the wrapped source is closed at the first read observing
end-of-stream, but a further read observing end-of-stream closes it
*again* (the value-receiver `Read`/`Close` lose the `isClosed` update),
contradicting the claim that it is closed exactly once. -/
theorem rac_closes_underlying_twice :
    (racReads mkRAC { data := [97, 98], closeCount := 0 } [1, 1, 1]).closeCount = 1 ∧
    (racReads mkRAC { data := [97, 98], closeCount := 0 } [1, 1, 1, 1]).closeCount = 2 := by
  constructor <;> rfl

/-- C7: the integer materializer yields `42` with no error on
`"  42\n"`, and the zero value together with a conversion error on
`"abc"`. -/
theorem int64_scenarios :
    int64Model (strBytes "  42\n") none = (42, none) ∧
    int64Model (strBytes "abc") none = (0, some (GoError.numError "abc")) := by
  constructor <;> rfl

/-- C8: the lifting adapter preserves the stage's output and returns its
error unchanged; it writes the error's message (newline-terminated) to
the diagnostic stream exactly when the error is non-nil, and writes
nothing otherwise. -/
theorem withErr_spec (prog : List Nat → List Nat × Option GoError) (stdin : List Nat) :
    (withErrModel prog stdin).1 = (prog stdin).1 ∧
    (withErrModel prog stdin).2.2 = (prog stdin).2 ∧
    (∀ e, (prog stdin).2 = some e →
        (withErrModel prog stdin).2.1 = strBytes (errString e) ++ [10]) ∧
    ((prog stdin).2 = none → (withErrModel prog stdin).2.1 = []) := by
  unfold withErrModel
  rcases h : (prog stdin).2 with _ | e <;> simp [h]

/-- Witness for C8 at a concrete failing stage. -/
theorem withErr_spec_witness :
    ((fun _ : List Nat => (([] : List Nat), some (GoError.generic "boom"))) []).2 =
      some (GoError.generic "boom") ∧
    (withErrModel (fun _ => ([], some (GoError.generic "boom"))) []).2.1 =
      strBytes (errString (GoError.generic "boom")) ++ [10] :=
  ⟨rfl, (withErr_spec (fun _ => ([], some (GoError.generic "boom"))) []).2.2.1
          (GoError.generic "boom") rfl⟩

/-- C9: frequency counting on `"b\na\nb\na\na\n"` outputs exactly the
line `"3 a"` followed by the line `"2 b"`. -/
theorem freq_scenario :
    freqOutput (strBytes "b\na\nb\na\na\n") = strBytes "3 a\n2 b\n" := by
  rfl

/-- C10: reading a nil pipeline returns 0 bytes and end-of-stream, for
any buffer size. -/
theorem pipelineRead_nil (c : Nat) :
    pipelineRead none c = ([], some GoError.eof) := rfl

/-- Unfolding equation for `readAllAux` at positive fuel. -/
theorem readAllAux_succ (fuel : Nat) (p : GoPipe) (c : Nat) :
    readAllAux (fuel + 1) p c =
      match pipeRead p c with
      | (p1, bs, some e) => if e = .eof then (p1, bs, none) else (p1, bs, some e)
      | (p1, bs, none) =>
          let r := readAllAux fuel p1 c
          (r.1, bs ++ r.2.1, r.2.2) := rfl

/-- Draining a read-only pipe with any positive chunk size and enough
fuel returns exactly the attached bytes with no error. -/
theorem readAllAux_readOnly (c : Nat) (hc : 1 ≤ c) (isC : Bool) :
    ∀ fuel data, List.length data < fuel →
      (readAllAux fuel (mkReadOnlyPipe data isC) c).2 = (data, none) := by
  intro fuel
  induction fuel with
  | zero => intro data h; exact absurd h (Nat.not_lt_zero _)
  | succ fuel ih =>
    intro data h
    cases data with
    | nil => simp [readAllAux, pipeRead, mkReadOnlyPipe]
    | cons b bs =>
      have hr : pipeRead (mkReadOnlyPipe (b :: bs) isC) c =
          (mkReadOnlyPipe ((b :: bs).drop c) isC, (b :: bs).take c, none) := by
        simp [pipeRead, mkReadOnlyPipe]
      have hlen : ((b :: bs).drop c).length < fuel := by
        rw [List.length_drop]
        simp only [List.length_cons] at h ⊢
        omega
      have hrec := ih ((b :: bs).drop c) hlen
      rw [readAllAux_succ, hr]
      simp only []
      rw [show (readAllAux fuel (mkReadOnlyPipe ((b :: bs).drop c) isC) c).2.1 =
            ((b :: bs).drop c) from congrArg Prod.fst hrec,
          show (readAllAux fuel (mkReadOnlyPipe ((b :: bs).drop c) isC) c).2.2 =
            none from congrArg Prod.snd hrec]
      simp [List.take_append_drop]

/-- C5: with a finite input attached as the pipeline's reader and zero
stages piped, `Bytes` yields exactly the input with no error (for any
positive read chunk size and enough read iterations). -/
theorem bytes_of_read_only (input : List Nat) (isC : Bool) (c fuel : Nat)
    (hc : 1 ≤ c) (hf : input.length < fuel) :
    goBytes (withReaderP newPipeline input isC) c fuel = (input, none) := by
  have h := readAllAux_readOnly c hc isC fuel input hf
  unfold goBytes withReaderP newPipeline
  simp only []
  rcases hr : readAllAux fuel (mkReadOnlyPipe input isC) c with ⟨p2, data, err⟩
  rw [hr] at h
  obtain ⟨hdata, herr⟩ : data = input ∧ err = none := by
    constructor
    · exact congrArg Prod.fst h
    · exact congrArg Prod.snd h
  subst hdata; subst herr
  rfl

/-- Witness for C5 at a concrete input, chunk size and fuel. -/
theorem bytes_of_read_only_witness :
    1 ≤ 2 ∧ List.length [7, 8, 9] < 4 ∧
    goBytes (withReaderP newPipeline [7, 8, 9] false) 2 4 = ([7, 8, 9], none) :=
  ⟨by decide, by decide, bytes_of_read_only [7, 8, 9] false 2 4 (by decide) (by decide)⟩

/-- A CRLF pair in a suffix is a CRLF pair in the whole list. -/
theorem hasCRLF_append_of_right (xs ys : List Nat) (h : hasCRLF ys = true) :
    hasCRLF (xs ++ ys) = true := by
  induction xs with
  | nil => simpa using h
  | cons x xs ih =>
    cases hxy : xs ++ ys with
    | nil =>
      rcases List.append_eq_nil.mp hxy with ⟨-, h2⟩
      subst h2; simp [hasCRLF] at h
    | cons t r =>
      show hasCRLF (x :: xs ++ ys) = true
      rw [List.cons_append, hxy, hasCRLF]
      rw [hxy] at ih
      simp [ih]

/-- Contrapositive form: a CRLF-free list has CRLF-free suffixes. -/
theorem hasCRLF_of_append (xs ys : List Nat) (h : hasCRLF (xs ++ ys) = false) :
    hasCRLF ys = false := by
  by_contra hne
  rw [hasCRLF_append_of_right xs ys (by revert hne; cases hasCRLF ys <;> simp)] at h
  exact absurd h (by simp)

/-- If appending `10 :: rest` to `l` stays CRLF-free, `l` cannot end in
a carriage return, so `dropCR` leaves it alone. -/
theorem dropCR_of_no_crlf (l rest : List Nat) (h : hasCRLF (l ++ 10 :: rest) = false) :
    dropCR l = l := by
  unfold dropCR
  split
  · next hlast =>
    exfalso
    obtain ⟨init, hinit⟩ : ∃ init, l = init ++ [13] := by
      rcases l.eq_nil_or_concat with h0 | ⟨init, a, ha⟩
      · subst h0; simp at hlast
      · subst ha
        simp [List.getLast?_concat] at hlast
        exact ⟨init, by rw [hlast]; exact List.concat_eq_append _ _⟩
    subst hinit
    rw [List.append_assoc] at h
    rw [hasCRLF_append_of_right init ([13] ++ 10 :: rest) (by rw [List.singleton_append, hasCRLF]; simp)] at h
    exact absurd h (by simp)
  · rfl

/-- Accumulator invariant for the line round-trip: scanning the pending
reversed token `acc` followed by a CRLF-free `input` that ends in a
line feed, then joining with line feeds, reproduces
`acc.reverse ++ input`. -/
theorem joinLines_scanLinesAux (input : List Nat) :
    ∀ acc, input.getLast? = some 10 → hasCRLF (acc.reverse ++ input) = false →
      joinLines (scanLinesAux input acc) = acc.reverse ++ input := by
  induction input with
  | nil => intro acc h; simp at h
  | cons b rest ih =>
    intro acc hlast hcr
    by_cases hb : b = 10
    · subst hb
      rw [scanLinesAux, if_pos rfl, joinLines,
          dropCR_of_no_crlf acc.reverse rest hcr]
      cases rest with
      | nil => simp [scanLinesAux, joinLines]
      | cons r rs =>
        have hlast' : (r :: rs).getLast? = some 10 := by
          rwa [List.getLast?_cons_cons] at hlast
        have hcr' : hasCRLF (([] : List Nat).reverse ++ r :: rs) = false := by
          have : hasCRLF ((acc.reverse ++ [10]) ++ r :: rs) = false := by
            rwa [List.append_assoc, List.singleton_append]
          simpa using hasCRLF_of_append _ _ this
        rw [ih [] hlast' hcr']
        simp
    · rw [scanLinesAux, if_neg hb]
      have hrest : rest ≠ [] := by
        intro h0
        subst h0
        simp [List.getLast?] at hlast
        exact hb hlast
      have hlast' : rest.getLast? = some 10 := by
        cases rest with
        | nil => exact absurd rfl hrest
        | cons r rs => rwa [List.getLast?_cons_cons] at hlast
      have hcr' : hasCRLF ((b :: acc).reverse ++ rest) = false := by
        rw [List.reverse_cons, List.append_assoc, List.singleton_append]
        exact hcr
      rw [ih (b :: acc) hlast' hcr']
      simp

/-- C6 (amended): for input that is empty or ends in a line feed (no
unterminated partial line) and contains no carriage-return/line-feed
pair, joining the materialized line list with one line-feed separator
per line reproduces the input exactly. -/
theorem slice_join_roundtrip (input : List Nat)
    (h1 : input = [] ∨ input.getLast? = some 10) (h2 : hasCRLF input = false) :
    joinLines (sliceModel input) = input := by
  rcases h1 with h | h
  · subst h; rfl
  · have := joinLines_scanLinesAux input [] h (by simpa using h2)
    simpa [sliceModel, goLines] using this

/-- C6 counterexample: the input `"a\r\n"` ends in a terminated line
(no unterminated partial line), yet joining its materialized line list
with line-feed separators yields `"a\n"`, not the original bytes — the
scanner strips the carriage return. -/
theorem slice_join_roundtrip_cex :
    (strBytes "a\r\n").getLast? = some 10 ∧
    joinLines (sliceModel (strBytes "a\r\n")) ≠ strBytes "a\r\n" := by
  constructor <;> decide

/-- Witness for the amended C6 at a concrete CRLF-free input. -/
theorem slice_join_roundtrip_witness :
    ((strBytes "a\n\n") = [] ∨ (strBytes "a\n\n").getLast? = some 10) ∧
    hasCRLF (strBytes "a\n\n") = false ∧
    joinLines (sliceModel (strBytes "a\n\n")) = strBytes "a\n\n" :=
  ⟨Or.inr (by decide), by decide,
   slice_join_roundtrip _ (Or.inr (by decide)) (by decide)⟩

/-- `takeWhile` passes over a prefix on which the predicate holds
everywhere. -/
theorem takeWhile_all_append {α : Type} (p : α → Bool) (a b : List α)
    (h : a.all p = true) : (a ++ b).takeWhile p = a ++ b.takeWhile p := by
  induction a with
  | nil => simp
  | cons x xs ih =>
    simp only [List.all_cons, Bool.and_eq_true] at h
    rw [List.cons_append, List.takeWhile_cons_of_pos h.1, ih h.2,
        List.cons_append]

/-- The trailing digit run of `pre ++ "exit status " ++ d` is exactly
`d` whenever `d` is all digits: the literal's closing space stops the
run. -/
theorem trailingDigits_append (pre d : List Char)
    (hd : d.all Char.isDigit = true) :
    trailingDigits (pre ++ exitStatusLit ++ d) = d := by
  unfold trailingDigits
  rw [List.reverse_append, List.reverse_append,
      takeWhile_all_append _ _ _ (by rwa [List.all_reverse]),
      show exitStatusLit.reverse = ' ' :: "sutats tixe".toList from by decide,
      List.cons_append, List.takeWhile_cons_of_neg (by decide)]
  simp

/-- Taking everything but the trailing `d` from
`pre ++ "exit status " ++ d` leaves `pre ++ "exit status "`. -/
theorem take_before_digits (pre lit d : List Char) :
    (pre ++ lit ++ d).take ((pre ++ lit ++ d).length - d.length) = pre ++ lit := by
  rw [show ((pre ++ lit) ++ d).length - d.length = (pre ++ lit).length from by
        simp [List.length_append]; omega]
  exact List.take_left _ _

/-- `endsWithL` accepts its own suffix. -/
theorem endsWithL_self_suffix (pre suf : List Char) :
    endsWithL (pre ++ suf) suf = true := by
  unfold endsWithL
  rw [show (pre ++ suf).length - suf.length = pre.length from by
        simp [List.length_append],
      List.drop_left]
  simp

/-- The regexp model matches `pre ++ "exit status " ++ d` and captures
`d`, for non-empty all-digit `d`. -/
theorem findExitDigits_append (pre d : List Char) (hne : d ≠ [])
    (hd : d.all Char.isDigit = true) :
    findExitDigits (pre ++ exitStatusLit ++ d) = some d := by
  simp only [findExitDigits]
  rw [trailingDigits_append pre d hd, if_neg hne,
      take_before_digits pre exitStatusLit d, endsWithL_self_suffix]
  simp

/-- Splitting any list before its trailing digit run. -/
theorem take_append_trailingDigits (s : List Char) :
    s.take (s.length - (trailingDigits s).length) ++ trailingDigits s = s := by
  have hsplit : (s.reverse.dropWhile Char.isDigit).reverse ++ trailingDigits s = s := by
    unfold trailingDigits
    rw [← List.reverse_append, List.takeWhile_append_dropWhile, List.reverse_reverse]
  have hlen : s.length - (trailingDigits s).length =
      ((s.reverse.dropWhile Char.isDigit).reverse).length := by
    have h2 := congrArg List.length hsplit
    simp only [List.length_append] at h2
    omega
  have htake := List.take_left (s.reverse.dropWhile Char.isDigit).reverse
    (trailingDigits s)
  rw [hsplit] at htake
  rw [hlen, htake]
  exact hsplit

/-- Soundness of the regexp model: a captured group `d` really is a
non-empty all-digit run preceded by the literal `"exit status "`. -/
theorem findExitDigits_sound (s d : List Char) (h : findExitDigits s = some d) :
    ∃ pre, s = pre ++ exitStatusLit ++ d ∧ d ≠ [] ∧ d.all Char.isDigit = true := by
  simp only [findExitDigits] at h
  by_cases h1 : trailingDigits s = []
  · rw [if_pos h1] at h; exact absurd h (by simp)
  · rw [if_neg h1] at h
    by_cases h2 : endsWithL (s.take (s.length - (trailingDigits s).length)) exitStatusLit = true
    · rw [if_pos h2] at h
      have hd : d = trailingDigits s := (Option.some_inj.mp h).symm
      subst hd
      have hdig : (trailingDigits s).all Char.isDigit = true := by
        unfold trailingDigits
        rw [List.all_reverse]
        exact List.all_takeWhile
      unfold endsWithL at h2
      have hsuf := of_decide_eq_true h2
      set front := s.take (s.length - (trailingDigits s).length) with hfront
      refine ⟨front.take (front.length - exitStatusLit.length), ?_, h1, hdig⟩
      have hfr : front = front.take (front.length - exitStatusLit.length) ++ exitStatusLit := by
        nth_rewrite 1 [← List.take_append_drop (front.length - exitStatusLit.length) front]
        rw [hsuf]
      rw [← hfr]
      exact (take_append_trailingDigits s).symm
    · rw [if_neg h2] at h; exact absurd h (by simp)

/-- Completeness direction used by the final branch of C1: when no
decomposition exists, the pattern does not match. -/
theorem findExitDigits_eq_none (m : List Char)
    (h : ¬ ∃ pre d, d ≠ [] ∧ d.all Char.isDigit = true ∧
          m = pre ++ exitStatusLit ++ d) :
    findExitDigits m = none := by
  cases hf : findExitDigits m with
  | none => rfl
  | some d =>
    obtain ⟨pre, hs, hne, hd⟩ := findExitDigits_sound m d hf
    exact absurd ⟨pre, d, hne, hd, hs⟩ h

/-- Unfolding of `exitStatus` on a generic error. -/
theorem exitStatus_generic (s : String) :
    exitStatus (some (.generic s)) =
      match findExitDigits s.toList with
      | some d => (match goAtoi d with | some v => v | none => 0)
      | none => 0 := rfl

/-- C1: the exit status is 0 with no captured error; else the checks run
in order — a structured `ExitError` yields its code, an external-process
`exec.ExitError` yields its native code, a message ending in
`"exit status <digits>"` yields the digits as parsed by `Atoi` (0 when
the parse overflows), and everything else yields 0. -/
theorem exitStatus_layered :
    exitStatus none = 0 ∧
    (∀ (c : Int) (m : String), exitStatus (some (GoError.exitError c m)) = c) ∧
    (∀ c : Int, exitStatus (some (GoError.execExitError c)) = c) ∧
    (∀ (pre d : List Char), d ≠ [] → d.all Char.isDigit = true →
        exitStatus (some (GoError.generic (String.mk (pre ++ exitStatusLit ++ d)))) =
          (match goAtoi d with | some v => v | none => 0)) ∧
    (∀ m : List Char,
        (¬ ∃ pre d, d ≠ [] ∧ d.all Char.isDigit = true ∧
              m = pre ++ exitStatusLit ++ d) →
        exitStatus (some (GoError.generic (String.mk m))) = 0) := by
  refine ⟨rfl, fun c m => rfl, fun c => rfl, ?_, ?_⟩
  · intro pre d hne hd
    rw [exitStatus_generic,
        show (String.mk (pre ++ exitStatusLit ++ d)).toList =
          pre ++ exitStatusLit ++ d from rfl,
        findExitDigits_append pre d hne hd]
  · intro m hm
    rw [exitStatus_generic, show (String.mk m).toList = m from rfl,
        findExitDigits_eq_none m hm]

/-- Witness for C1 on a concrete message carrying the textual pattern. -/
theorem exitStatus_layered_witness :
    ("42".toList ≠ ([] : List Char) ∧ "42".toList.all Char.isDigit = true) ∧
    exitStatus (some (GoError.generic "boom: exit status 42")) = 42 := by
  refine ⟨⟨by decide, by decide⟩, ?_⟩
  have h := exitStatus_layered.2.2.2.1 "boom: ".toList "42".toList
    (by decide) (by decide)
  rw [show String.mk ("boom: ".toList ++ exitStatusLit ++ "42".toList) =
        "boom: exit status 42" from by decide] at h
  rw [h]
  decide
